import Mathlib

/-!
Verification development for the LoRA-One adapter initialization and
calibration engine (`run_exp.py`).

The embedding models matrices as total functions `ℕ → ℕ → ℚ` with explicit
shape bookkeeping carried alongside; exact rational arithmetic replaces
floating point.  Numerical primitives that have no exact rational
counterpart (low-rank SVD, random-distribution sampling, fractional powers,
precision casts) are supplied as oracle functions; all structure, branching,
indexing, scaling and in-place mutation is translated directly from the
source.  Python exceptions are modelled with `Except`, with the error value
carrying the module state at the moment the exception is raised, because the
source mutates tensors in place before some of its raise sites.
-/

namespace LoraOne

/-- Dense 2-D numeric array, indexed unboundedly; shapes are tracked
separately by the structures that own the matrices. -/
abbrev Mat : Type := ℕ → ℕ → ℚ

/-- Matrix product with explicit inner dimension `k` (the shared rank). -/
def matMul (k : ℕ) (A B : Mat) : Mat :=
  fun i j => ∑ t ∈ Finset.range k, A i t * B t j

/-- Transpose, as in `V = V.T` in the source. -/
def matTranspose (M : Mat) : Mat := fun i j => M j i

/-- Elementwise negation, as in `-grads`. -/
def matNeg (M : Mat) : Mat := fun i j => - M i j

/-- Largest absolute value in row `i` among the first `c` columns
(helper for `torch.max(torch.abs(.))`). -/
def rowMaxAbs (M : Mat) (i : ℕ) : ℕ → ℚ
  | 0 => 0
  | c + 1 => max (rowMaxAbs M i c) |M i c|

/-- Largest absolute value of the `r × c` region of `M`, embedding
`torch.max(torch.abs(M))`. -/
def maxAbs (M : Mat) : ℕ → ℕ → ℚ
  | 0, _ => 0
  | r + 1, c => max (maxAbs M r c) (rowMaxAbs M r c)

/-- The initialization configuration read by `reinit_lora_modules`
(`init_config` in the source).  `scale` and `dtype` are optional because the
source guards them with `.get`/containment checks. -/
structure InitConfig where
  mode : String
  lora_A : String
  lora_B : String
  lora_A_std : ℚ
  lora_B_std : ℚ
  scale : Option String
  direction : String
  stable_gamma : ℚ
  dtype : Option String
  norm_clip : Bool

/-- The slice of `peft_conf` read by `reinit_lora_modules`. -/
structure PeftConf where
  dora : Bool
  lora_alpha : ℚ

/-- One adapted linear module: base `weight` of shape `rows × cols`,
factors `loraA : rank × cols` and `loraB : rows × rank`, the adapter's
`scaling["default"]`, and the DoRA magnitude vector. -/
structure LoraModule where
  rows : ℕ
  cols : ℕ
  rank : ℕ
  weight : Mat
  loraA : Mat
  loraB : Mat
  scaling : ℚ
  magnitude : ℕ → ℚ

/-- Oracles for the numerical primitives of the source that have no exact
rational counterpart.  `svd M q niter` stands for
`torch.svd_lowrank(M, q=q, niter=niter) = (U, S, V)`; `sample which dist`
for the value a random initializer writes into factor `which`; `rpow` for
float `x ** y`; `sqrtq` for `x ** 0.5` / `torch.sqrt` / `math.sqrt`; and
`cast dt x` for a precision cast of the scalar `x` to dtype `dt`. -/
structure Oracles where
  svd : Mat → ℕ → ℕ → Mat × (ℕ → ℚ) × Mat
  sample : String → String → Mat
  rpow : ℚ → ℚ → ℚ
  sqrtq : ℚ → ℚ
  cast : String → ℚ → ℚ

/-- Python-level failures that `reinit_lora_modules` can raise. -/
inductive PyErr where
  | valueError : String → PyErr
  | unboundLocal : String → PyErr
  | keyError : PyErr
  | missingKey : String → PyErr
  deriving DecidableEq

/-- Distribution names accepted by the `match` statements of the `simple`
mode (the same seven strings for `lora_A` and `lora_B`). -/
def knownDists : List String :=
  ["gaussian", "kaiming", "fan_out_kaiming", "xavier", "zeros", "unit", "orthogonal"]

/-- The matrix written by a recognized distribution: `zeros` writes the zero
matrix; every other recognized name writes whatever the random draw
produced, supplied by the oracle. -/
def sampleDist (oc : Oracles) (which dist : String) : Mat :=
  if dist == "zeros" then fun _ _ => 0 else oc.sample which dist

/-- Embedding of the `init_config.mode == "simple"` branch.  The two
`match` statements re-sample `lora_A` then `lora_B` in place and raise
`ValueError` on an unknown distribution name; afterwards, if the `scale`
policy is `"stable"`, the source reads the local names `m` and `n`, which
are assigned only in the `svd` and `gradient` branches, so Python raises
`UnboundLocalError` on this path. -/
def simpleBranch (oc : Oracles) (cfg : InitConfig) (mod : LoraModule) :
    Except (PyErr × LoraModule) LoraModule :=
  if cfg.lora_A ∈ knownDists then
    let mod1 := { mod with loraA := sampleDist oc "A" cfg.lora_A }
    if cfg.lora_B ∈ knownDists then
      let mod2 := { mod1 with loraB := sampleDist oc "B" cfg.lora_B }
      if cfg.scale.getD "" == "stable" then
        .error (.unboundLocal "m", mod2)
      else .ok mod2
    else .error (.valueError ("Unknown lora_B initialization: " ++ cfg.lora_B), mod1)
  else .error (.valueError ("Unknown lora_A initialization: " ++ cfg.lora_A), mod)

/-- Embedding of the `init_config.mode == "svd"` branch:
`U, S, V = torch.svd_lowrank(weight, q=4*lora_r, niter=4); V = V.T`, then
four mutually exclusive scale policies; an unrecognized scale string falls
through the `if`/`elif` chain without assigning anything. -/
def svdBranch (oc : Oracles) (cfg : InitConfig) (mod : LoraModule) :
    Except (PyErr × LoraModule) LoraModule :=
  let lora_r := min mod.rank mod.cols
  let res := oc.svd mod.weight (4 * lora_r) 4
  let U := res.1
  let S0 := res.2.1
  let V := matTranspose res.2.2
  match cfg.scale with
  | none => .error (.missingKey "scale", mod)
  | some sc =>
    if sc == "default" then
      let S := fun i => S0 i / mod.scaling
      .ok { mod with rank := lora_r,
                     loraB := fun i j => U i j * oc.sqrtq (S j),
                     loraA := fun i j => oc.sqrtq (S i) * V i j }
    else if sc == "stable" then
      .ok { mod with rank := lora_r,
                     loraB := fun i j =>
                       U i j * oc.rpow (mod.rows : ℚ) (1 / 4) / oc.sqrtq cfg.stable_gamma,
                     loraA := fun i j =>
                       V i j * oc.rpow (mod.cols : ℚ) (1 / 4) / oc.sqrtq cfg.stable_gamma }
    else if sc == "unit" then
      .ok { mod with rank := lora_r, loraB := U, loraA := V }
    else if sc == "normalized" then
      let Ssum := ∑ i ∈ Finset.range lora_r, S0 i
      .ok { mod with rank := lora_r,
                     loraB := fun i j =>
                       U i j * oc.sqrtq (S0 j) / oc.sqrtq Ssum * oc.sqrtq (lora_r : ℚ),
                     loraA := fun i j =>
                       V i j * oc.sqrtq (S0 i) / oc.sqrtq Ssum * oc.sqrtq (lora_r : ℚ) }
    else .ok mod

/-- The `LoRA-One` factors
`B = U[:, :r] @ diag(sqrt(S[:r])) / sqrt(S[0])` and
`A = diag(sqrt(S[:r])) @ V[:r, :] / sqrt(S[0])`, written entrywise. -/
def loraOneFactors (oc : Oracles) (U : Mat) (S : ℕ → ℚ) (V : Mat) : Mat × Mat :=
  (fun i j => U i j * oc.sqrtq (S j) / oc.sqrtq (S 0),
   fun i j => oc.sqrtq (S i) * V i j / oc.sqrtq (S 0))

/-- Embedding of the `init_config.mode == "gradient"` branch.  `namedGrads`
is the result of looking this module up in `kwargs["named_grads"]`
(`none` models the `KeyError` of a missing entry).  The locals `B` and `A`
are assigned only under the `LoRA-One` / `LoRA-GA` direction tests, so an
unrecognized direction leads to `UnboundLocalError` at their first later
use; this is modelled by threading `Option (Mat × Mat)`. -/
def gradientBranch (oc : Oracles) (cfg : InitConfig) (pc : PeftConf) (mod : LoraModule)
    (namedGrads : Option Mat) : Except (PyErr × LoraModule) LoraModule :=
  match namedGrads with
  | none => .error (.keyError, mod)
  | some grads =>
    let lora_r := min mod.rank mod.cols
    let svdIn := if cfg.direction == "LoRA-One" then matNeg grads else grads
    let res := oc.svd svdIn 512 16
    let U := res.1
    let S := res.2.1
    let V := matTranspose res.2.2
    let BA : Option (Mat × Mat) :=
      if cfg.direction == "LoRA-One" then some (loraOneFactors oc U S V)
      else if cfg.direction == "LoRA-GA" then
        some (fun i j => U i (lora_r + j), V)
      else none
    let sf := mod.scaling
    let scaledE : Except (PyErr × LoraModule) (Option (Mat × Mat)) :=
      match cfg.scale with
      | none => .error (.missingKey "scale", mod)
      | some sc =>
        if sc == "gd" then
          match BA with
          | none => .error (.unboundLocal "A", mod)
          | some p => .ok (some (fun i j => p.1 i j / sf, fun i j => p.2 i j / sf))
        else if sc == "unit" then .ok BA
        else if sc == "stable" then
          match BA with
          | none => .error (.unboundLocal "B", mod)
          | some p =>
            if cfg.direction == "LoRA-One" then
              .ok (some (fun i j => p.1 i j / oc.sqrtq cfg.stable_gamma,
                         fun i j => p.2 i j / oc.sqrtq cfg.stable_gamma))
            else
              .ok (some (fun i j =>
                           p.1 i j * oc.rpow (mod.rows : ℚ) (1 / 4) / oc.sqrtq cfg.stable_gamma,
                         fun i j =>
                           p.2 i j * oc.rpow (mod.rows : ℚ) (1 / 4) / oc.sqrtq cfg.stable_gamma))
        else if sc == "weightS" then
          match BA with
          | none => .error (.unboundLocal "B", mod)
          | some p =>
            let resW := oc.svd mod.weight (4 * lora_r) 4
            let Sw := fun i => resW.2.1 i / mod.scaling
            let avg := (∑ i ∈ Finset.range lora_r, oc.sqrtq (Sw i)) / (lora_r : ℚ)
            .ok (some (fun i j => p.1 i j * avg, fun i j => p.2 i j * avg))
        else .ok BA
    match scaledE with
    | .error e => .error e
    | .ok none => .error (.unboundLocal "B", mod)
    | .ok (some p) =>
      if pc.dora then
        let Vtmp : Mat := fun i j =>
          mod.weight i j + pc.lora_alpha / oc.sqrtq (lora_r : ℚ) * matMul lora_r p.1 p.2 i j
        let mag := fun i => oc.sqrtq (∑ j ∈ Finset.range mod.cols, Vtmp i j ^ 2)
        .ok { mod with rank := lora_r, loraB := p.1, loraA := p.2, magnitude := mag }
      else
        .ok { mod with rank := lora_r, loraB := p.1, loraA := p.2 }

/-- Elementwise precision cast of a matrix. -/
def castMat (oc : Oracles) (dt : String) (M : Mat) : Mat := fun i j => oc.cast dt (M i j)

/-- Embedding of the dtype-cast block at the head of the
`with torch.no_grad():` tail: DoRA forces fp16 on `A`, `B` and the
magnitude vector; otherwise an optional `bf16`/`fp32` cast of `A` and `B`
(an absent or unrecognized dtype string does nothing). -/
def castStep (oc : Oracles) (cfg : InitConfig) (pc : PeftConf) (mod : LoraModule) :
    LoraModule :=
  if pc.dora then
    { mod with loraA := castMat oc "fp16" mod.loraA,
               loraB := castMat oc "fp16" mod.loraB,
               magnitude := fun i => oc.cast "fp16" (mod.magnitude i) }
  else
    match cfg.dtype with
    | none => mod
    | some dt =>
      if dt == "bf16" then
        { mod with loraA := castMat oc "bf16" mod.loraA, loraB := castMat oc "bf16" mod.loraB }
      else if dt == "fp32" then
        { mod with loraA := castMat oc "fp32" mod.loraA, loraB := castMat oc "fp32" mod.loraB }
      else mod

/-- The induced offset `scale · (B @ A)` (the source computes `B @ A` and
then multiplies by `module.scaling["default"]`). -/
def offsetMat (mod : LoraModule) : Mat :=
  fun i j => mod.scaling * matMul mod.rank mod.loraB mod.loraA i j

/-- The clip quotient `torch.max(|weight|) / torch.max(|offset|)`. -/
def clipBound (mod : LoraModule) : ℚ :=
  maxAbs mod.weight mod.rows mod.cols / maxAbs (offsetMat mod) mod.rows mod.cols

/-- Embedding of the offset-subtraction block: skipped entirely when the
direction is `LoRA-One`; otherwise computes `offset = scale·(B@A)`,
optionally clips it (scaling `A` and `B` by `ratio ** 0.5`), and subtracts
it from `weight` in place.  The `try/except: breakpoint()` of the source
guards shape mismatches, which cannot occur in this total-function
embedding. -/
def finalizeStep (oc : Oracles) (cfg : InitConfig) (mod : LoraModule) : LoraModule :=
  if cfg.direction == "LoRA-One" then mod
  else
    let offset := offsetMat mod
    if cfg.norm_clip then
      let rq := clipBound mod
      if rq < 1 then
        { mod with weight := fun i j => mod.weight i j - rq * offset i j,
                   loraA := fun i j => mod.loraA i j * oc.sqrtq rq,
                   loraB := fun i j => mod.loraB i j * oc.sqrtq rq }
      else
        { mod with weight := fun i j => mod.weight i j - offset i j }
    else
      { mod with weight := fun i j => mod.weight i j - offset i j }

/-- The `with torch.no_grad():` tail of `reinit_lora_modules`: the dtype
cast followed by the offset subtraction.  It runs for every mode,
including an unrecognized one. -/
def commonTail (oc : Oracles) (cfg : InitConfig) (pc : PeftConf) (mod : LoraModule) :
    LoraModule :=
  finalizeStep oc cfg (castStep oc cfg pc mod)

/-- The mode dispatch of `reinit_lora_modules`: an `if`/`elif` chain with
no final `else`, so an unrecognized mode string performs no initialization
and falls through to the common tail. -/
def initPhase (oc : Oracles) (cfg : InitConfig) (pc : PeftConf) (mod : LoraModule)
    (namedGrads : Option Mat) : Except (PyErr × LoraModule) LoraModule :=
  if cfg.mode == "simple" then simpleBranch oc cfg mod
  else if cfg.mode == "svd" then svdBranch oc cfg mod
  else if cfg.mode == "gradient" then gradientBranch oc cfg pc mod namedGrads
  else .ok mod

/-- Full embedding of `reinit_lora_modules`: mode dispatch, then the
cast-and-subtract tail. -/
def reinit_lora_modules (oc : Oracles) (cfg : InitConfig) (pc : PeftConf) (mod : LoraModule)
    (namedGrads : Option Mat) : Except (PyErr × LoraModule) LoraModule :=
  match initPhase oc cfg pc mod namedGrads with
  | .error e => .error e
  | .ok mod2 => .ok (commonTail oc cfg pc mod2)

/-- Extracts the raised error, if any, of a `reinit_lora_modules` run. -/
def reinitErr (oc : Oracles) (cfg : InitConfig) (pc : PeftConf) (mod : LoraModule)
    (namedGrads : Option Mat) : Option PyErr :=
  match reinit_lora_modules oc cfg pc mod namedGrads with
  | .ok _ => none
  | .error e => some e.1

/-- Whether a `reinit_lora_modules` run completed without raising. -/
def reinitOk (oc : Oracles) (cfg : InitConfig) (pc : PeftConf) (mod : LoraModule)
    (namedGrads : Option Mat) : Bool :=
  match reinit_lora_modules oc cfg pc mod namedGrads with
  | .ok _ => true
  | .error _ => false

/-- Entry `(i, j)` of the base weight after a successful run. -/
def reinitWeightEntry (oc : Oracles) (cfg : InitConfig) (pc : PeftConf) (mod : LoraModule)
    (namedGrads : Option Mat) (i j : ℕ) : Option ℚ :=
  match reinit_lora_modules oc cfg pc mod namedGrads with
  | .ok m => some (m.weight i j)
  | .error _ => none

/-- Entry `(i, j)` of `lora_A` after a successful run. -/
def reinitLoraAEntry (oc : Oracles) (cfg : InitConfig) (pc : PeftConf) (mod : LoraModule)
    (namedGrads : Option Mat) (i j : ℕ) : Option ℚ :=
  match reinit_lora_modules oc cfg pc mod namedGrads with
  | .ok m => some (m.loraA i j)
  | .error _ => none

/-- Entry `(i, j)` of `lora_B` after a successful run. -/
def reinitLoraBEntry (oc : Oracles) (cfg : InitConfig) (pc : PeftConf) (mod : LoraModule)
    (namedGrads : Option Mat) (i j : ℕ) : Option ℚ :=
  match reinit_lora_modules oc cfg pc mod namedGrads with
  | .ok m => some (m.loraB i j)
  | .error _ => none

/-- A named parameter store: `model.named_parameters()` in declaration
order, each parameter abstracted to one exact rational value (restoration
is elementwise, so a single representative entry suffices and `ℚ` keeps
the bit-for-bit comparison exact). -/
abbrev Params := List (String × ℚ)

/-- Dictionary lookup over an association list (first entry wins, like a
Python dict built without key collisions). -/
def lookupParam (l : Params) (n : String) : Option ℚ :=
  (l.find? (fun p => p.1 == n)).map (fun p => p.2)

/-- The snapshot taken on entry to `temporary_weights`: the clone of every
parameter whose name is in `adapted_weights`. -/
def saveOriginal (params : Params) (adapted : String → Bool) : Params :=
  params.filter (fun p => adapted p.1)

/-- The in-place mutation `param.data -= eta * adapted_weights[name]`
applied to every parameter named in `adapted_weights`. -/
def applyAdapted (params : Params) (delta : String → ℚ) (adapted : String → Bool)
    (eta : ℚ) : Params :=
  params.map (fun p => if adapted p.1 then (p.1, p.2 - eta * delta p.1) else p)

/-- One step of the `finally` block: a live parameter whose name was
snapshotted is overwritten with its snapshot value
(`param.data.copy_(original_params[name])`); other parameters are kept. -/
def restoreEntry (saved : Params) (p : String × ℚ) : String × ℚ :=
  match lookupParam saved p.1 with
  | some v => (p.1, v)
  | none => p

/-- The `finally` block of `temporary_weights`, applied to every live
parameter. -/
def restoreOriginal (saved : Params) (params : Params) : Params :=
  params.map (restoreEntry saved)

/-- Embedding of the `temporary_weights` context manager.  `body` is the
caller's evaluation block: it receives the mutated parameters and returns
the parameter store at scope exit together with `some msg` when it raised.
The `finally` restoration runs on both exit paths. -/
def temporary_weights (params : Params) (delta : String → ℚ) (adapted : String → Bool)
    (eta : ℚ) (body : Params → Option String × Params) : Option String × Params :=
  let saved := saveOriginal params adapted
  let mutated := applyAdapted params delta adapted eta
  let bodyOut := body mutated
  (bodyOut.1, restoreOriginal saved bodyOut.2)

/-- Per-batch gradients: the gradient tensor (abstracted to one rational
entry) that the backward pass left on each named parameter, `none` when
the parameter received no gradient. -/
abbrev BatchGrads := String → Option ℚ

/-- The running accumulator `record_dict`, in dict insertion order. -/
abbrev GradRecord := List (String × ℚ)

/-- Dict update `record_dict[n] = g` if absent / `record_dict[n] += g` if
present. -/
def addGrad : GradRecord → String → ℚ → GradRecord
  | [], n, g => [(n, g)]
  | p :: rest, n, g =>
    if p.1 = n then (p.1, p.2 + g) :: rest else p :: addGrad rest n g

/-- Embedding of `record_gradient_hook`: walk `model.named_parameters()`;
every parameter with `requires_grad` and a pending gradient has that
gradient added into `record_dict` and cleared. -/
def record_gradient_hook (params : List (String × Bool)) (grads : BatchGrads)
    (acc : GradRecord) : GradRecord :=
  params.foldl
    (fun acc p =>
      if p.2 then
        match grads p.1 with
        | some g => addGrad acc p.1 g
        | none => acc
       else acc)
    acc

/-- The batch loop of `estimate_gradient`: each batch either raises during
its forward/backward pass (`Except.error`, which propagates immediately) or
produces per-parameter gradients that the hook folds into `record_dict`;
`num` counts processed batches. -/
def runBatches (params : List (String × Bool)) :
    List (Except String BatchGrads) → GradRecord → ℕ → Except String (GradRecord × ℕ)
  | [], acc, num => .ok (acc, num)
  | .error e :: _, _, _ => .error e
  | .ok g :: rest, acc, num =>
    runBatches params rest (record_gradient_hook params g acc) (num + 1)

/-- Outcome of an `estimate_gradient` run: the averaged gradient map (or
the propagated batch error) together with the number of parameter hooks
still registered when control leaves the function. -/
structure EstimateResult where
  grads : Except String GradRecord
  hooksRemaining : ℕ

/-- Embedding of `estimate_gradient`: one hook is registered per named
parameter; the batch loop accumulates; afterwards every accumulated entry
is divided by the number of batches and the hooks are removed.  The
`hook.remove()` loop sits after the batch loop with no `try`/`finally`, so
a batch error leaves every hook registered. -/
def estimate_gradient (params : List (String × Bool))
    (batches : List (Except String BatchGrads)) : EstimateResult :=
  match runBatches params batches [] 0 with
  | .error e => { grads := .error e, hooksRemaining := params.length }
  | .ok acc =>
    { grads := .ok (acc.1.map (fun p => (p.1, p.2 / (acc.2 : ℚ)))), hooksRemaining := 0 }

/-- Lookup into the result of `estimate_gradient` (a raised batch error
yields no gradient map at all). -/
def lookupGradResult (r : EstimateResult) (n : String) : Option ℚ :=
  match r.grads with
  | .ok acc => lookupParam acc n
  | .error _ => none

/-- Whether a batch evaluated without raising. -/
def batchOk : Except String BatchGrads → Bool
  | .ok _ => true
  | .error _ => false

/-- IEEE-style loss values as observed by `search_eta`: a real number, the
initial `float('inf')`, or NaN.  The only comparisons that hold are
`val < val` (ordinarily) and `val < inf`; every comparison against NaN is
false, as in floating point. -/
inductive FloatQ where
  | nan : FloatQ
  | inf : FloatQ
  | val : ℚ → FloatQ
  deriving DecidableEq

/-- The `loss < min_loss` comparison of the source, with IEEE semantics. -/
def FloatQ.lt : FloatQ → FloatQ → Bool
  | .val a, .val b => a < b
  | .val _, .inf => true
  | _, _ => false

/-- The fixed descending candidate grid of `search_eta`. -/
def eta_list : List ℚ :=
  [10, 5, 1, 5 / 10, 1 / 10, 5 / 100, 1 / 100, 5 / 1000, 1 / 1000, 5 / 10000, 1 / 10000]

/-- One iteration of the `search_eta` loop: the candidate's mean loss
replaces the running best only when it compares strictly below it. -/
def searchStep (meanLoss : ℚ → FloatQ) (st : FloatQ × Option ℚ) (eta : ℚ) :
    FloatQ × Option ℚ :=
  if FloatQ.lt (meanLoss eta) st.1 then (meanLoss eta, some eta) else st

/-- Embedding of `search_eta`: `min_loss = float('inf')`, `best_eta = None`,
then the grid is traversed in order; `meanLoss eta` is the mean calibration
loss observed inside the `temporary_weights` scope for that candidate. -/
def search_eta (meanLoss : ℚ → FloatQ) : Option ℚ :=
  (eta_list.foldl (searchStep meanLoss) (FloatQ.inf, none)).2

/-- Modelled from the claim's words for comparison with the source: the
"corresponding right-singular block" for `LoRA-GA`, i.e. rows
`rank..2*rank` of `Vᵀ` — the same index range the claim assigns to `B`.
The source instead takes rows `0..rank`. -/
def loraGA_A_claim (V : Mat) (r : ℕ) : Mat := fun i j => V (r + i) j

/-- Oracles whose numerical primitives all return fixed trivial values;
used to evaluate the embedding on concrete inputs where the oracle values
are irrelevant. -/
def trivOracles : Oracles :=
  { svd := fun _ _ _ => (fun _ _ => 0, fun _ => 0, fun _ _ => 0),
    sample := fun _ _ => fun _ _ => 0,
    rpow := fun _ _ => 0,
    sqrtq := fun _ => 0,
    cast := fun _ x => x }

/-- A 1×1 module whose adapter product is nonzero. -/
def modOnes : LoraModule :=
  { rows := 1, cols := 1, rank := 1, weight := fun _ _ => 0,
    loraA := fun _ _ => 1, loraB := fun _ _ => 1, scaling := 1, magnitude := fun _ => 0 }

/-- A plain (non-DoRA) peft configuration. -/
def pcPlain : PeftConf := { dora := false, lora_alpha := 16 }

/-- A configuration with an unrecognized `mode` string. -/
def cfgBadMode : InitConfig :=
  { mode := "bogus", lora_A := "zeros", lora_B := "zeros", lora_A_std := 0, lora_B_std := 0,
    scale := some "unit", direction := "none", stable_gamma := 1, dtype := none,
    norm_clip := false }

/-- A simple-mode configuration with an unrecognized `lora_A` distribution. -/
def cfgBadDist : InitConfig :=
  { mode := "simple", lora_A := "banana", lora_B := "zeros", lora_A_std := 0, lora_B_std := 0,
    scale := none, direction := "none", stable_gamma := 1, dtype := none, norm_clip := false }

/-- A simple-mode configuration with the `stable` scale policy. -/
def cfgSimpleStable : InitConfig :=
  { mode := "simple", lora_A := "zeros", lora_B := "zeros", lora_A_std := 0, lora_B_std := 0,
    scale := some "stable", direction := "none", stable_gamma := 4, dtype := none,
    norm_clip := false }

/-- An svd-mode configuration with the `unit` scale policy and a non-LoRA-One
direction. -/
def cfgSvdUnit : InitConfig :=
  { mode := "svd", lora_A := "zeros", lora_B := "zeros", lora_A_std := 0, lora_B_std := 0,
    scale := some "unit", direction := "none", stable_gamma := 1, dtype := none,
    norm_clip := false }

/-- A gradient-mode configuration with direction `LoRA-GA` and `unit` scale. -/
def cfgGA : InitConfig :=
  { mode := "gradient", lora_A := "zeros", lora_B := "zeros", lora_A_std := 0, lora_B_std := 0,
    scale := some "unit", direction := "LoRA-GA", stable_gamma := 1, dtype := none,
    norm_clip := false }

/-- A gradient-mode configuration with direction `LoRA-One`. -/
def cfgOne : InitConfig :=
  { mode := "gradient", lora_A := "zeros", lora_B := "zeros", lora_A_std := 0, lora_B_std := 0,
    scale := some "unit", direction := "LoRA-One", stable_gamma := 1, dtype := none,
    norm_clip := false }

/-- A fixed SVD oracle answer distinguishing the first and second
right-singular rows: `Vᵀ 0 0 = 5` and `Vᵀ 1 0 = 7`. -/
def svdC7 : Mat × (ℕ → ℚ) × Mat :=
  (fun _ _ => 11, fun _ => 1,
   fun i j => if i = 0 ∧ j = 0 then 5 else if i = 0 ∧ j = 1 then 7 else 0)

/-- Oracles returning `svdC7` for every SVD request. -/
def oraclesC7 : Oracles := { trivOracles with svd := fun _ _ _ => svdC7 }

/-- A 1×2 module of rank 1 (so `lora_r = 1`). -/
def modC7 : LoraModule :=
  { rows := 1, cols := 2, rank := 1, weight := fun _ _ => 0,
    loraA := fun _ _ => 0, loraB := fun _ _ => 0, scaling := 1, magnitude := fun _ => 0 }

/-- A 1×1 module with nonzero weight and factors, for the finalize
cancellation witness. -/
def modTiny : LoraModule :=
  { rows := 1, cols := 1, rank := 1, weight := fun _ _ => 4,
    loraA := fun _ _ => 2, loraB := fun _ _ => 3, scaling := 1, magnitude := fun _ => 0 }

/-- Addition of optional gradients, treating an absent entry as absent
(not zero): the combination law obeyed by `record_dict` accumulation. -/
def optAdd : Option ℚ → Option ℚ → Option ℚ
  | none, b => b
  | some x, none => some x
  | some x, some y => some (x + y)

/-- Total gradient a name receives across a batch list, `none` when no
batch produced a gradient for it. -/
def listTotal (n : String) : List BatchGrads → Option ℚ
  | [] => none
  | b :: rest => optAdd (b n) (listTotal n rest)

/-- The tail of `eta_list` after its head `10`. -/
def etaTail : List ℚ :=
  [5, 1, 5 / 10, 1 / 10, 5 / 100, 1 / 100, 5 / 1000, 1 / 1000, 5 / 10000, 1 / 10000]

/-- Specification-side recursion for the `search_eta` loop: the first
element of the list whose loss drops strictly below the running bound `c`,
refined left to right. -/
def pickBetter (L : ℚ → ℚ) : ℚ → List ℚ → Option ℚ
  | _, [] => none
  | c, x :: xs =>
    if L x < c then
      match pickBetter L (L x) xs with
      | some y => some y
      | none => some x
    else pickBetter L c xs

/-- A two-parameter store for the restoration witness. -/
def paramsC1 : Params := [("w", 3), ("x", 1)]

/-- An evaluation block that mutates the parameters further and then
raises, for the restoration witness. -/
def bodyC1 : Params → Option String × Params :=
  fun p => (some "raised", applyAdapted p (fun _ => 1) (fun _ => true) 1)

/-- Parameter list for the gradient-averaging witness: one trainable and
one frozen parameter. -/
def paramsC4 : List (String × Bool) := [("w", true), ("v", false)]

/-- Two batches that both produce a gradient only for `"w"`. -/
def batchesC4 : List BatchGrads :=
  [fun s => if s == "w" then some 1 else none,
   fun s => if s == "w" then some 2 else none]

theorem beq_string_false {a b : String} (h : a ≠ b) : (a == b) = false :=
  beq_eq_false_iff_ne.mpr h

/-- Claim C2: for factors produced by the non-LoRA-One SVD and gradient
initialization paths, when clipping does not trigger, the finalized weight
plus `scale · (B @ A)` equals the weight entering finalize — exactly, in
this rational-arithmetic embedding, hence within any relative tolerance:
finalize subtracts exactly the offset the adapter adds back at injection. -/
theorem finalize_offset_cancellation (oc : Oracles) (cfg : InitConfig) (mod : LoraModule)
    (hdir : cfg.direction ≠ "LoRA-One")
    (hclip : cfg.norm_clip = false ∨ 1 ≤ clipBound mod) (i j : ℕ) :
    (finalizeStep oc cfg mod).weight i j
      + mod.scaling
        * matMul mod.rank (finalizeStep oc cfg mod).loraB (finalizeStep oc cfg mod).loraA i j
    = mod.weight i j := by
  unfold finalizeStep
  rw [beq_string_false hdir]
  cases hclip with
  | inl h =>
    simp only [Bool.false_eq_true, if_false, h, offsetMat]
    ring
  | inr h =>
    by_cases hnc : cfg.norm_clip
    · have hlt : ¬ clipBound mod < 1 := not_lt.mpr h
      simp only [Bool.false_eq_true, if_false, hnc, if_true, hlt, offsetMat]
      ring
    · simp only [Bool.false_eq_true, if_false, hnc, offsetMat]
      ring

theorem finalize_offset_cancellation_witness :
    (finalizeStep trivOracles cfgSvdUnit modTiny).weight 0 0
      + modTiny.scaling
        * matMul modTiny.rank (finalizeStep trivOracles cfgSvdUnit modTiny).loraB
            (finalizeStep trivOracles cfgSvdUnit modTiny).loraA 0 0
    = modTiny.weight 0 0 :=
  finalize_offset_cancellation trivOracles cfgSvdUnit modTiny (by decide) (Or.inl rfl) 0 0

/-- Claim C9: when the active direction is LoRA-One, the cast-and-finalize
tail leaves the base weight matrix unchanged (only the factors and the
magnitude vector may be precision-cast). -/
theorem lora_one_finalize_weight_unchanged (oc : Oracles) (cfg : InitConfig) (pc : PeftConf)
    (mod : LoraModule) (h : cfg.direction = "LoRA-One") (i j : ℕ) :
    (commonTail oc cfg pc mod).weight i j = mod.weight i j := by
  unfold commonTail finalizeStep castStep
  rw [h]
  by_cases hdora : pc.dora
  · simp [hdora]
  · cases hdt : cfg.dtype with
    | none => simp [hdora, hdt]
    | some dt =>
      by_cases h16 : dt == "bf16"
      · simp [hdora, hdt, h16]
      · by_cases h32 : dt == "fp32"
        · simp [hdora, hdt, h16, h32]
        · simp [hdora, hdt, h16, h32]

theorem lora_one_finalize_weight_unchanged_witness :
    (commonTail trivOracles cfgOne pcPlain modTiny).weight 0 0 = modTiny.weight 0 0 :=
  lora_one_finalize_weight_unchanged trivOracles cfgOne pcPlain modTiny rfl 0 0

/-- Counterexample for claim C3: with the unrecognized mode string
`"bogus"`, `reinit_lora_modules` raises no error at all — the mode chain
has no `else` — and the common tail still subtracts the adapter offset, so
the weight entry changes from `0` to `-1`. -/
theorem unknown_mode_no_error_cex :
    reinitOk trivOracles cfgBadMode pcPlain modOnes none = true ∧
    reinitWeightEntry trivOracles cfgBadMode pcPlain modOnes none 0 0 = some (-1) ∧
    modOnes.weight 0 0 = 0 := by
  refine ⟨rfl, ?_, rfl⟩
  unfold reinitWeightEntry reinit_lora_modules initPhase commonTail
  simp [castStep, finalizeStep, offsetMat, matMul, cfgBadMode, modOnes, pcPlain, clipBound]

/-- Claim C3, amended: only the unrecognized *distribution* strings of the
simple mode are validated — an unknown `lora_A` raises a `ValueError`
immediately, before any factor or weight mutation (the error state carries
the module unchanged); unrecognized `mode` or `scale` strings raise nothing
and fall through. -/
theorem unknown_distribution_raises_value_error (oc : Oracles) (cfg : InitConfig)
    (pc : PeftConf) (mod : LoraModule) (ng : Option Mat)
    (hmode : cfg.mode = "simple") (hA : cfg.lora_A ∉ knownDists) :
    reinit_lora_modules oc cfg pc mod ng =
      .error (.valueError ("Unknown lora_A initialization: " ++ cfg.lora_A), mod) := by
  unfold reinit_lora_modules initPhase simpleBranch
  rw [hmode]
  simp [hA]

theorem unknown_distribution_raises_value_error_witness :
    reinit_lora_modules trivOracles cfgBadDist pcPlain modOnes none =
      .error (.valueError ("Unknown lora_A initialization: " ++ cfgBadDist.lora_A),
              modOnes) :=
  unknown_distribution_raises_value_error trivOracles cfgBadDist pcPlain modOnes none rfl
    (by decide)

/-- Claim C6: in simple mode with the `"stable"` scale policy the source
reads the local names `m` and `n` (assigned only in the svd and gradient
branches), so instead of rescaling `B` and `A` the call raises
`UnboundLocalError` for every recognized pair of distributions. -/
theorem simple_stable_unbound_local (oc : Oracles) (cfg : InitConfig) (pc : PeftConf)
    (mod : LoraModule) (ng : Option Mat)
    (hmode : cfg.mode = "simple") (hA : cfg.lora_A ∈ knownDists)
    (hB : cfg.lora_B ∈ knownDists) (hscale : cfg.scale = some "stable") :
    reinitErr oc cfg pc mod ng = some (.unboundLocal "m") := by
  unfold reinitErr reinit_lora_modules initPhase simpleBranch
  rw [hmode, hscale]
  simp [hA, hB]

theorem simple_stable_unbound_local_witness :
    reinitErr trivOracles cfgSimpleStable pcPlain modOnes none =
      some (.unboundLocal "m") :=
  simple_stable_unbound_local trivOracles cfgSimpleStable pcPlain modOnes none rfl
    (by decide) (by decide) rfl

/-- Counterexample for claim C7: with direction `LoRA-GA` the source sets
`A = V[:rank, :]` — the *first* `rank` right-singular rows — not the block
`rank..2*rank` corresponding to `B`'s column indices.  On an SVD oracle
answer with `Vᵀ 0 0 = 5` and `Vᵀ 1 0 = 7` (rank 1), the produced `A` entry
is `5`, while the claim's "corresponding block" reading demands `7`. -/
theorem lora_ga_A_not_second_block_cex :
    reinitLoraAEntry oraclesC7 cfgGA pcPlain modC7 (some (fun _ _ => 0)) 0 0 = some 5 ∧
    loraGA_A_claim (matTranspose svdC7.2.2) 1 0 0 = 7 ∧
    (5 : ℚ) ≠ 7 := by
  refine ⟨by decide, by decide, by norm_num⟩

/-- Claim C7, amended: in gradient mode with direction `LoRA-GA` and `unit`
scale, the initializer sets `B` to the *second* block of `rank`
left-singular vectors (`U` columns `rank..2*rank`, unscaled) but `A` to the
*first* `rank` right-singular rows (`Vᵀ` rows `0..rank`, unscaled). -/
theorem lora_ga_block_indices (oc : Oracles) (cfg : InitConfig) (pc : PeftConf)
    (mod : LoraModule) (grads : Mat)
    (hdir : cfg.direction = "LoRA-GA") (hscale : cfg.scale = some "unit")
    (hdora : pc.dora = false) :
    ∃ mod2, gradientBranch oc cfg pc mod (some grads) = .ok mod2 ∧
      (∀ i j, mod2.loraB i j = (oc.svd grads 512 16).1 i (min mod.rank mod.cols + j)) ∧
      (∀ i j, mod2.loraA i j = (oc.svd grads 512 16).2.2 j i) := by
  unfold gradientBranch
  rw [hdir, hscale]
  simp only [hdora, Bool.false_eq_true, if_false]
  exact ⟨_, rfl, fun i j => rfl, fun i j => rfl⟩

theorem lora_ga_block_indices_witness :
    ∃ mod2, gradientBranch oraclesC7 cfgGA pcPlain modC7 (some (fun _ _ => 0)) = .ok mod2 ∧
      (∀ i j, mod2.loraB i j =
        (oraclesC7.svd (fun _ _ => 0) 512 16).1 i (min modC7.rank modC7.cols + j)) ∧
      (∀ i j, mod2.loraA i j = (oraclesC7.svd (fun _ _ => 0) 512 16).2.2 j i) :=
  lora_ga_block_indices oraclesC7 cfgGA pcPlain modC7 (fun _ _ => 0) rfl rfl rfl

theorem lookupParam_cons (p : String × ℚ) (ps : Params) (n : String) :
    lookupParam (p :: ps) n = if p.1 = n then some p.2 else lookupParam ps n := by
  by_cases h : p.1 = n
  · simp [lookupParam, List.find?, h]
  · have hb : (p.1 == n) = false := beq_string_false h
    simp [lookupParam, List.find?, hb, h]

theorem lookupParam_filter (ps : Params) (adapted : String → Bool) (n : String)
    (hn : adapted n = true) :
    lookupParam (saveOriginal ps adapted) n = lookupParam ps n := by
  induction ps with
  | nil => rfl
  | cons p ps ih =>
    unfold saveOriginal at ih ⊢
    by_cases hp : adapted p.1 = true
    · rw [show List.filter (fun q => adapted q.1) (p :: ps)
            = p :: List.filter (fun q => adapted q.1) ps from by
          simp [List.filter_cons, hp]]
      rw [lookupParam_cons, lookupParam_cons, ih]
    · rw [show List.filter (fun q => adapted q.1) (p :: ps)
            = List.filter (fun q => adapted q.1) ps from by
          simp [List.filter_cons, hp]]
      rw [ih, lookupParam_cons]
      have hne : p.1 ≠ n := fun he => hp (he ▸ hn)
      rw [if_neg hne]

theorem restoreEntry_fst (saved : Params) (p : String × ℚ) :
    (restoreEntry saved p).1 = p.1 := by
  unfold restoreEntry
  cases lookupParam saved p.1 <;> rfl

theorem lookupParam_restore (saved l : Params) (n : String) :
    lookupParam (restoreOriginal saved l) n =
      match lookupParam l n with
      | none => none
      | some v =>
        match lookupParam saved n with
        | some w => some w
        | none => some v := by
  induction l with
  | nil => rfl
  | cons p ps ih =>
    unfold restoreOriginal at ih ⊢
    rw [List.map_cons, lookupParam_cons, restoreEntry_fst]
    by_cases hp : p.1 = n
    · subst hp
      rw [if_pos rfl, lookupParam_cons, if_pos rfl]
      unfold restoreEntry
      cases hs : lookupParam saved p.1 with
      | none => rfl
      | some w => rfl
    · rw [if_neg hp, ih, lookupParam_cons, if_neg hp]

theorem lookupParam_none_iff (l : Params) (n : String) :
    lookupParam l n = none ↔ n ∉ l.map Prod.fst := by
  induction l with
  | nil => simp [lookupParam]
  | cons p ps ih =>
    rw [lookupParam_cons]
    by_cases hp : p.1 = n
    · simp [hp]
    · simp only [if_neg hp, ih, List.map_cons, List.mem_cons]
      constructor
      · intro h hc
        rcases hc with hc | hc
        · exact hp hc.symm
        · exact h hc
      · intro h hc
        exact h (Or.inr hc)

/-- Claim C1: after a `temporary_weights` scope exits — whether the
caller's evaluation block returned normally or raised, and whatever
in-place mutation it performed (any parameter store with the same names) —
every parameter whose name was snapshotted on entry equals its pre-scope
value exactly. -/
theorem temporary_weights_restores (params : Params) (delta : String → ℚ)
    (adapted : String → Bool) (eta : ℚ) (body : Params → Option String × Params)
    (hnames : ((body (applyAdapted params delta adapted eta)).2).map Prod.fst
        = params.map Prod.fst)
    (n : String) (hadapted : adapted n = true) :
    lookupParam (temporary_weights params delta adapted eta body).2 n
      = lookupParam params n := by
  show lookupParam
      (restoreOriginal (saveOriginal params adapted)
        (body (applyAdapted params delta adapted eta)).2) n = lookupParam params n
  rw [lookupParam_restore]
  have hsaved := lookupParam_filter params adapted n hadapted
  cases hafter : lookupParam (body (applyAdapted params delta adapted eta)).2 n with
  | none =>
    have h1 : n ∉ params.map Prod.fst := by
      rw [← hnames]
      exact (lookupParam_none_iff _ _).mp hafter
    exact ((lookupParam_none_iff _ _).mpr h1).symm
  | some v =>
    have h2 : n ∈ params.map Prod.fst := by
      rw [← hnames]
      by_contra hc
      rw [(lookupParam_none_iff _ _).mpr hc] at hafter
      exact Option.noConfusion hafter
    rw [hsaved]
    cases hq : lookupParam params n with
    | none => exact absurd ((lookupParam_none_iff _ _).mp hq) (by simpa using h2)
    | some w => rfl

theorem temporary_weights_restores_witness :
    lookupParam
        (temporary_weights paramsC1 (fun _ => 2) (fun s => s == "w") 5 bodyC1).2 "w"
      = lookupParam paramsC1 "w" :=
  temporary_weights_restores paramsC1 (fun _ => 2) (fun s => s == "w") 5 bodyC1
    (by decide) "w" rfl

theorem optAdd_none_right (a : Option ℚ) : optAdd a none = a := by
  cases a <;> rfl

theorem optAdd_assoc (a b c : Option ℚ) : optAdd (optAdd a b) c = optAdd a (optAdd b c) := by
  cases a <;> cases b <;> cases c <;> simp [optAdd, add_assoc]

theorem optAdd_some_right (a : Option ℚ) (v : ℚ) :
    optAdd a (some v) = some (a.getD 0 + v) := by
  cases a <;> simp [optAdd]

theorem lookupParam_addGrad (acc : GradRecord) (k : String) (g : ℚ) (n : String) :
    lookupParam (addGrad acc k g) n =
      if k = n then some ((lookupParam acc n).getD 0 + g) else lookupParam acc n := by
  induction acc with
  | nil =>
    by_cases h : k = n
    · subst h
      simp [addGrad, lookupParam_cons, lookupParam]
    · simp [addGrad, lookupParam_cons, lookupParam, h]
  | cons p ps ih =>
    unfold addGrad
    by_cases hpk : p.1 = k
    · rw [if_pos hpk]
      by_cases hn : p.1 = n
      · have hkn : k = n := hpk ▸ hn
        rw [lookupParam_cons, if_pos hn, lookupParam_cons, if_pos hn, if_pos hkn]
        simp
      · have hkn : ¬ k = n := fun h => hn (hpk.trans h)
        rw [lookupParam_cons, if_neg hn, if_neg hkn, lookupParam_cons, if_neg hn]
    · rw [if_neg hpk, lookupParam_cons]
      by_cases hn : p.1 = n
      · have hkn : ¬ k = n := fun h => hpk (hn.trans h.symm)
        rw [if_pos hn, if_neg hkn, lookupParam_cons, if_pos hn]
      · rw [if_neg hn, ih, lookupParam_cons, if_neg hn]

theorem lookupParam_hook (params : List (String × Bool)) (g : BatchGrads)
    (acc : GradRecord) (n : String) (hnodup : (params.map Prod.fst).Nodup) :
    lookupParam (record_gradient_hook params g acc) n =
      if (n, true) ∈ params then optAdd (lookupParam acc n) (g n)
      else lookupParam acc n := by
  induction params generalizing acc with
  | nil => simp [record_gradient_hook]
  | cons p ps ih =>
    rw [List.map_cons, List.nodup_cons] at hnodup
    obtain ⟨hp1, hps⟩ := hnodup
    unfold record_gradient_hook at ih ⊢
    rw [List.foldl_cons]
    by_cases hn : p.1 = n
    · have hnps : (n, true) ∉ ps := fun hc => hp1 (hn ▸ (List.mem_map.mpr ⟨_, hc, rfl⟩))
      have hmem : ((n, true) ∈ p :: ps) ↔ (p = (n, true)) := by
        simp [List.mem_cons, hnps, eq_comm]
      rw [ih _ hps, if_neg hnps]
      by_cases hb : p.2 = true
      · have hpeq : p = (n, true) := by
          cases p
          simp_all
        rw [if_pos (hmem.mpr hpeq), hb]
        simp only [if_true]
        cases hg : g p.1 with
        | none =>
          rw [hn] at hg
          rw [hg, optAdd_none_right]
        | some v =>
          rw [lookupParam_addGrad, if_pos hn]
          rw [hn] at hg
          rw [hg, optAdd_some_right]
      · have hpne : p ≠ (n, true) := by
          intro hc
          rw [hc] at hb
          exact hb rfl
        rw [if_neg (fun hc => hpne (hmem.mp hc))]
        rw [show (if p.2 = true then
              match g p.1 with
              | some gg => addGrad acc p.1 gg
              | none => acc
             else acc) = acc from by rw [if_neg hb]]
    · have hmem : ((n, true) ∈ p :: ps) ↔ ((n, true) ∈ ps) := by
        rw [List.mem_cons]
        constructor
        · intro hc
          rcases hc with hc | hc
          · exact absurd (congrArg Prod.fst hc).symm hn
          · exact hc
        · exact Or.inr
      have hacc : lookupParam
          (if p.2 = true then
            match g p.1 with
            | some gg => addGrad acc p.1 gg
            | none => acc
           else acc) n = lookupParam acc n := by
        by_cases hb : p.2 = true
        · rw [if_pos hb]
          cases hg : g p.1 with
          | none => rfl
          | some v => rw [lookupParam_addGrad, if_neg hn]
        · rw [if_neg hb]
      rw [ih _ hps]
      by_cases hin : (n, true) ∈ ps
      · rw [if_pos hin, if_pos (hmem.mpr hin), hacc]
      · rw [if_neg hin, if_neg (fun hc => hin (hmem.mp hc)), hacc]

theorem lookupParam_foldhook (params : List (String × Bool)) (batches : List BatchGrads)
    (acc : GradRecord) (n : String) (hnodup : (params.map Prod.fst).Nodup) :
    lookupParam (batches.foldl (fun a b => record_gradient_hook params b a) acc) n =
      if (n, true) ∈ params then optAdd (lookupParam acc n) (listTotal n batches)
      else lookupParam acc n := by
  induction batches generalizing acc with
  | nil =>
    by_cases h : (n, true) ∈ params
    · simp [h, listTotal, optAdd_none_right]
    · simp [h]
  | cons b bs ih =>
    rw [List.foldl_cons, ih (record_gradient_hook params b acc)]
    by_cases h : (n, true) ∈ params
    · rw [if_pos h, if_pos h, lookupParam_hook _ _ _ _ hnodup, if_pos h]
      rw [show listTotal n (b :: bs) = optAdd (b n) (listTotal n bs) from rfl]
      exact optAdd_assoc _ _ _
    · rw [if_neg h, if_neg h, lookupParam_hook _ _ _ _ hnodup, if_neg h]

theorem runBatches_map_ok (params : List (String × Bool)) (batches : List BatchGrads)
    (acc : GradRecord) (num : ℕ) :
    runBatches params (batches.map Except.ok) acc num =
      .ok (batches.foldl (fun a b => record_gradient_hook params b a) acc,
           num + batches.length) := by
  induction batches generalizing acc num with
  | nil => simp [runBatches]
  | cons b bs ih =>
    show runBatches params (.ok b :: bs.map Except.ok) acc num = _
    rw [runBatches, ih]
    have hlen : num + 1 + bs.length = num + (b :: bs).length := by
      simp [List.length_cons]
      omega
    rw [hlen, List.foldl_cons]

theorem lookupParam_map_div (l : GradRecord) (c : ℚ) (n : String) :
    lookupParam (l.map (fun p => (p.1, p.2 / c))) n
      = (lookupParam l n).map (fun v => v / c) := by
  induction l with
  | nil => rfl
  | cons p ps ih =>
    rw [List.map_cons, lookupParam_cons, lookupParam_cons]
    by_cases h : p.1 = n
    · rw [if_pos h, if_pos h]
      rfl
    · rw [if_neg h, if_neg h, ih]

theorem listTotal_eq (n : String) (batches : List BatchGrads) :
    listTotal n batches =
      if batches.any (fun b => (b n).isSome)
      then some ((batches.map (fun b => (b n).getD 0)).sum) else none := by
  induction batches with
  | nil => rfl
  | cons b bs ih =>
    rw [show listTotal n (b :: bs) = optAdd (b n) (listTotal n bs) from rfl, ih]
    cases hb : b n with
    | none =>
      by_cases hany : bs.any (fun b => (b n).isSome) = true
      · simp [hany, hb, List.any_cons, optAdd]
      · simp [List.any_eq_true] at hany
        simp [hb, List.any_cons, List.any_eq_true, hany, optAdd]
    | some v =>
      by_cases hany : bs.any (fun b => (b n).isSome) = true
      · simp [hany, hb, List.any_cons, optAdd]
      · have hz : (bs.map (fun b => (b n).getD 0)).sum = 0 := by
          apply List.sum_eq_zero
          intro q hq
          rcases List.mem_map.mp hq with ⟨b2, hb2, rfl⟩
          have hnone : b2 n = none := by
            cases hb2n : b2 n with
            | none => rfl
            | some w =>
              exact absurd (List.any_eq_true.mpr ⟨b2, hb2, by simp [hb2n]⟩) hany
          rw [hnone]
          rfl
        simp [hany, hb, List.any_cons, optAdd, hz]

/-- Claim C4: over a calibration run whose batches all evaluate, a
parameter that is trainable and received a gradient in at least one batch
maps to the accumulated per-batch gradient sum divided by the number of
batches processed (the arithmetic mean, with batches that produced no
gradient for it contributing zero); any other parameter is simply absent
from the result. -/
theorem estimate_gradient_mean (params : List (String × Bool)) (batches : List BatchGrads)
    (hnodup : (params.map Prod.fst).Nodup) (n : String) :
    lookupGradResult (estimate_gradient params (batches.map Except.ok)) n =
      if (n, true) ∈ params ∧ batches.any (fun b => (b n).isSome)
      then some ((batches.map (fun b => (b n).getD 0)).sum / (batches.length : ℚ))
      else none := by
  unfold estimate_gradient
  rw [runBatches_map_ok]
  show lookupParam
      ((batches.foldl (fun a b => record_gradient_hook params b a) []).map
        (fun p => (p.1, p.2 / ((0 + batches.length : ℕ) : ℚ)))) n = _
  rw [lookupParam_map_div, lookupParam_foldhook params batches [] n hnodup]
  have hcast : ((0 + batches.length : ℕ) : ℚ) = (batches.length : ℚ) := by norm_num
  rw [hcast]
  by_cases h1 : (n, true) ∈ params
  · rw [if_pos h1]
    rw [show lookupParam [] n = none from rfl]
    rw [show optAdd none (listTotal n batches) = listTotal n batches from rfl]
    rw [listTotal_eq]
    by_cases h2 : batches.any (fun b => (b n).isSome) = true
    · rw [if_pos h2, if_pos ⟨h1, h2⟩]
      rfl
    · rw [if_neg h2, if_neg (fun hc => h2 hc.2)]
      rfl
  · rw [if_neg h1, if_neg (fun hc => h1 hc.1)]
    rfl

theorem estimate_gradient_mean_witness :
    lookupGradResult (estimate_gradient paramsC4 (batchesC4.map Except.ok)) "w" =
      if ("w", true) ∈ paramsC4 ∧ batchesC4.any (fun b => (b "w").isSome)
      then some ((batchesC4.map (fun b => (b "w").getD 0)).sum / (batchesC4.length : ℚ))
      else none :=
  estimate_gradient_mean paramsC4 batchesC4 (by decide) "w"

theorem runBatches_ok_flag (params : List (String × Bool))
    (batches : List (Except String BatchGrads)) (acc : GradRecord) (num : ℕ) :
    (match runBatches params batches acc num with
     | .ok _ => true
     | .error _ => false) = batches.all batchOk := by
  induction batches generalizing acc num with
  | nil => rfl
  | cons b bs ih =>
    cases b with
    | error e => rfl
    | ok g =>
      rw [show runBatches params (.ok g :: bs) acc num
            = runBatches params bs (record_gradient_hook params g acc) (num + 1) from rfl]
      rw [ih]
      simp [List.all_cons, batchOk]

/-- Claim C8, amended: `estimate_gradient` removes all of its parameter
hooks on normal completion, but when any batch's forward/backward pass
raises, the error propagates before the removal loop is reached, leaving
every registered hook in place. -/
theorem estimate_gradient_hook_release (params : List (String × Bool))
    (batches : List (Except String BatchGrads)) :
    (estimate_gradient params batches).hooksRemaining =
      if batches.all batchOk then 0 else params.length := by
  have h := runBatches_ok_flag params batches [] 0
  unfold estimate_gradient
  cases hrb : runBatches params batches [] 0 with
  | error e =>
    rw [hrb] at h
    rw [if_neg (by rw [← h]; exact fun hc => Bool.noConfusion hc)]
  | ok acc =>
    rw [hrb] at h
    rw [if_pos h.symm]

/-- Counterexample for claim C8: a single-parameter model whose only
calibration batch raises — `estimate_gradient` exits with its one hook
still registered, not released. -/
theorem estimate_gradient_hook_leak_cex :
    (estimate_gradient [("w", true)] [Except.error "batch failed"]).hooksRemaining = 1 ∧
    (1 : ℕ) ≠ 0 :=
  ⟨rfl, by decide⟩

theorem foldl_searchStep_val (L : ℚ → ℚ) (l : List ℚ) (c : ℚ) (b : Option ℚ) :
    (l.foldl (searchStep (fun x => FloatQ.val (L x))) (FloatQ.val c, b)).2 =
      match pickBetter L c l with
      | some y => some y
      | none => b := by
  induction l generalizing c b with
  | nil => rfl
  | cons x xs ih =>
    rw [List.foldl_cons]
    by_cases h : L x < c
    · have hs : searchStep (fun x => FloatQ.val (L x)) (FloatQ.val c, b) x
          = (FloatQ.val (L x), some x) := by
        simp [searchStep, FloatQ.lt, h]

      rw [hs, ih]
      rw [show pickBetter L c (x :: xs)
            = match pickBetter L (L x) xs with
              | some y => some y
              | none => some x from by rw [pickBetter, if_pos h]]
      cases pickBetter L (L x) xs <;> rfl
    · have hs : searchStep (fun x => FloatQ.val (L x)) (FloatQ.val c, b) x
          = (FloatQ.val c, b) := by
        simp [searchStep, FloatQ.lt, h]
      rw [hs, ih]
      rw [show pickBetter L c (x :: xs) = pickBetter L c xs from by
        rw [pickBetter, if_neg h]]

theorem pickBetter_none (L : ℚ → ℚ) (c : ℚ) (l : List ℚ)
    (h : pickBetter L c l = none) : ∀ y ∈ l, c ≤ L y := by
  induction l generalizing c with
  | nil =>
    intro y hy
    cases hy
  | cons x xs ih =>
    intro y hy
    rw [pickBetter] at h
    by_cases hx : L x < c
    · rw [if_pos hx] at h
      cases hpb : pickBetter L (L x) xs <;> rw [hpb] at h <;> cases h
    · rw [if_neg hx] at h
      rcases List.mem_cons.mp hy with rfl | hmem
      · exact not_lt.mp hx
      · exact ih c h y hmem

theorem pickBetter_some (L : ℚ → ℚ) (l : List ℚ) :
    ∀ (c e : ℚ), pickBetter L c l = some e →
      L e < c ∧ ∃ l1 l2, l = l1 ++ e :: l2 ∧
        (∀ y ∈ l1, L e < L y) ∧ (∀ y ∈ l2, L e ≤ L y) := by
  induction l with
  | nil =>
    intro c e h
    cases h
  | cons x xs ih =>
    intro c e h
    rw [pickBetter] at h
    by_cases hx : L x < c
    · rw [if_pos hx] at h
      cases hpb : pickBetter L (L x) xs with
      | some y =>
        rw [hpb] at h
        have he : y = e := Option.some.inj h
        rw [he] at hpb
        obtain ⟨hlt, l1, l2, heq, hpre, hsuf⟩ := ih (L x) e hpb
        refine ⟨lt_trans hlt hx, x :: l1, l2, by rw [heq, List.cons_append], ?_, hsuf⟩
        intro z hz
        rcases List.mem_cons.mp hz with rfl | hm
        · exact hlt
        · exact hpre z hm
      | none =>
        rw [hpb] at h
        have he : x = e := Option.some.inj h
        rw [← he]
        exact ⟨hx, [], xs, rfl, fun z hz => absurd hz (List.not_mem_nil z),
               pickBetter_none L (L x) xs hpb⟩
    · rw [if_neg hx] at h
      obtain ⟨hlt, l1, l2, heq, hpre, hsuf⟩ := ih c e h
      refine ⟨hlt, x :: l1, l2, by rw [heq, List.cons_append], ?_, hsuf⟩
      intro y hy
      rcases List.mem_cons.mp hy with rfl | hm
      · exact lt_of_lt_of_le hlt (not_lt.mp hx)
      · exact hpre y hm

/-- Claim C5: over real-valued (non-NaN) mean losses, `search_eta`
traverses exactly the fixed descending candidate list and returns the
candidate with the strictly smallest mean loss: the chosen eta splits
`eta_list` so that every earlier candidate has strictly larger loss (ties
keep the first, i.e. largest, eta) and every later candidate has loss at
least as large. -/
theorem search_eta_first_min (L : ℚ → ℚ) :
    ∃ e l1 l2, search_eta (fun x => FloatQ.val (L x)) = some e ∧
      eta_list = l1 ++ e :: l2 ∧
      (∀ y ∈ l1, L e < L y) ∧ (∀ y ∈ l2, L e ≤ L y) := by
  have hlist : eta_list = 10 :: etaTail := rfl
  have hhead : searchStep (fun x => FloatQ.val (L x)) (FloatQ.inf, none) 10
      = (FloatQ.val (L 10), some 10) := by
    simp [searchStep, FloatQ.lt]
  have hs : search_eta (fun x => FloatQ.val (L x)) =
      match pickBetter L (L 10) etaTail with
      | some y => some y
      | none => some 10 := by
    unfold search_eta
    rw [hlist, List.foldl_cons, hhead, foldl_searchStep_val]
  cases hpb : pickBetter L (L 10) etaTail with
  | none =>
    rw [hpb] at hs
    refine ⟨10, [], etaTail, hs, hlist, ?_, pickBetter_none L (L 10) etaTail hpb⟩
    intro y hy
    cases hy
  | some y =>
    rw [hpb] at hs
    obtain ⟨hlt, l1, l2, heq, hpre, hsuf⟩ := pickBetter_some L etaTail (L 10) y hpb
    refine ⟨y, 10 :: l1, l2, hs, by rw [hlist, heq, List.cons_append], ?_, hsuf⟩
    intro z hz
    rcases List.mem_cons.mp hz with rfl | hm
    · exact hlt
    · exact hpre z hm

theorem floatq_lt_nan_left (y : FloatQ) : FloatQ.lt FloatQ.nan y = false := by
  cases y <;> rfl

/-- Claim C10: `search_eta` starts from `best_eta = None` and replaces it
only on a strict comparison win, so when every candidate's mean loss is
NaN — against which every `<` comparison is false — it returns `None`
rather than any of the eleven candidates. -/
theorem search_eta_all_nan (meanLoss : ℚ → FloatQ)
    (h : ∀ e ∈ eta_list, meanLoss e = FloatQ.nan) :
    search_eta meanLoss = none := by
  have key : ∀ l : List ℚ, (∀ e ∈ l, meanLoss e = FloatQ.nan) →
      ∀ st : FloatQ × Option ℚ, l.foldl (searchStep meanLoss) st = st := by
    intro l
    induction l with
    | nil =>
      intro _ st
      rfl
    | cons x xs ih =>
      intro hall st
      rw [List.foldl_cons]
      have hx : meanLoss x = FloatQ.nan := hall x (List.mem_cons_self x xs)
      have hstep : searchStep meanLoss st x = st := by
        unfold searchStep
        rw [hx, floatq_lt_nan_left]
        simp
      rw [hstep]
      exact ih (fun e he => hall e (List.mem_cons_of_mem x he)) st
  unfold search_eta
  rw [key eta_list h (FloatQ.inf, none)]

theorem search_eta_all_nan_witness : search_eta (fun _ => FloatQ.nan) = none :=
  search_eta_all_nan (fun _ => FloatQ.nan) (fun _ _ => rfl)

end LoraOne
